import Mathlib

/-!
Verification of the escr-scraper core algorithms: a shallow embedding in Lean 4
of the workload-partitioning code (`divide_data` in `main.py`), the window
planner (`get_all_dates_in_year` / `date_gap` in `src/utils.py`), the batch
processor (`batch_process_judgments` in `src/parser.py`), the retry harness
(`retry_request` in `src/api.py`) and the checkpointed traversal loops of
`main.py`, together with theorems settling the specification's claims.

Python floats are modelled with exact rationals (`ℚ`); every concrete input
used in a theorem below keeps all intermediate values exactly representable
in binary floating point, so the rational and float computations agree there.
Python's `round(x, 6)` (round-half-to-even at 6 decimals) and `int(x)`
(truncation toward zero) are modelled explicitly.  Raised exceptions are
modelled with `Except`/`Option`.
-/

set_option maxHeartbeats 1000000

namespace Escr

/-! ## WindowPlanner: `src/utils.py` -/

/-- Gregorian leap-year test, as implemented by Python's `datetime`
(`datetime(year, 12, 31)` is day 366 of a leap year). -/
def isLeap (y : ℤ) : Bool :=
  (y % 4 == 0 && y % 100 != 0) || y % 400 == 0

/-- Number of days in the year, i.e. the day-of-year ordinal of December 31. -/
def daysInYear (y : ℤ) : ℕ :=
  if isLeap y then 366 else 365

/-- The raw window length computed by `date_gap` before clamping
(`src/utils.py:47-50`): `math.floor(200 / (total_count / (365 - 2*4*12)))`.
Only meaningful for `total_count ≠ 0`. -/
def rawGap (total_count : ℤ) : ℤ :=
  let effective_judgement_days : ℤ := 365 - (2 * 4 * 12)
  let avg_judgement_per_day : ℚ := (total_count : ℚ) / (effective_judgement_days : ℚ)
  ⌊(200 : ℚ) / avg_judgement_per_day⌋

/-- `date_gap` from `src/utils.py:46-58`.  For `total_count = 0` the Python
division `200 / (total_count / 269)` raises `ZeroDivisionError` (division by
`0.0`), modelled as `none`.  Otherwise the raw floor is clamped: `≤ 0` becomes
one-day windows (`1`), `> 365` becomes the whole-year marker `-1`. -/
def date_gap (total_count : ℤ) : Option ℤ :=
  if total_count = 0 then none
  else if rawGap total_count ≤ 0 then some 1
  else if rawGap total_count > 365 then some (-1)
  else some (rawGap total_count)

/-- The `while current_start <= end_date` loop of `get_all_dates_in_year`
(`src/utils.py:25-41`), in day-of-year coordinates: `cur` is the current start
day, `D` the last day of the year, `step` the window length in days.
`fuel` bounds the recursion; `D + 1` steps always suffice since `step ≥ 1`
advances `cur` by at least one day per window. -/
def mkRangesAux : ℕ → ℕ → ℕ → ℕ → List (ℕ × ℕ)
  | 0, _, _, _ => []
  | fuel + 1, cur, D, step =>
    if cur > D then []
    else
      let e := min (cur + step - 1) D
      (cur, e) :: mkRangesAux fuel (e + 1) D step

/-- Consecutive windows of length `step` starting at day 1, truncated at
year-end `D`. -/
def mkRanges (D step : ℕ) : List (ℕ × ℕ) :=
  mkRangesAux (D + 1) 1 D step

/-- `get_all_dates_in_year` from `src/utils.py:5-43`, with windows expressed
as (start, end) day-of-year ordinals (1 = Jan 1, `daysInYear` = Dec 31).
`none` models the unguarded `ZeroDivisionError` escaping from `date_gap`
when `total_count = 0`. -/
def get_all_dates_in_year (year : ℤ) (total_count : ℤ) : Option (List (ℕ × ℕ)) :=
  match date_gap total_count with
  | none => none
  | some add_variable =>
    if add_variable = -1 then
      some [(1, daysInYear year)]
    else
      some (mkRanges (daysInYear year) add_variable.toNat)

/-- Cumulative day counts at the start of each month, non-leap years. -/
def monthStarts (leap : Bool) : List ℕ :=
  if leap then [0, 31, 60, 91, 121, 152, 182, 213, 244, 274, 305, 335, 366]
  else [0, 31, 59, 90, 120, 151, 181, 212, 243, 273, 304, 334, 365]

/-- Convert a 1-based day-of-year ordinal to a (month, day) pair. -/
def monthDayOfDoy (leap : Bool) (doy : ℕ) : ℕ × ℕ :=
  let starts := monthStarts leap
  let rec go : ℕ → ℕ × ℕ
    | 0 => (1, doy)
    | m + 1 =>
      if starts.getD m 0 < doy ∧ doy ≤ starts.getD (m + 1) 0 then
        (m + 1, doy - starts.getD m 0)
      else go m
  go 12

/-- Zero-padded two-digit rendering, as in `strftime("%m")` / `%d`. -/
def pad2 (n : ℕ) : String :=
  if n < 10 then "0" ++ toString n else toString n

/-- `strftime("%Y-%m-%d")` applied to day `doy` of `year`. -/
def fmtDate (year : ℤ) (doy : ℕ) : String :=
  let md := monthDayOfDoy (isLeap year) doy
  toString year ++ "-" ++ pad2 md.1 ++ "-" ++ pad2 md.2

/-- `get_all_dates_in_year` with its actual string output format. -/
def get_all_dates_in_year_str (year : ℤ) (total_count : ℤ) :
    Option (List (String × String)) :=
  (get_all_dates_in_year year total_count).map
    (fun l => l.map (fun p => (fmtDate year p.1, fmtDate year p.2)))

/-! ## ShardSplitter: `divide_data` in `main.py:152-240`

A Python dict `{year: count}` is modelled as an association list of integer
pairs with distinct keys; `sorted(data.items())` is modelled by an insertion
sort on (key, value) in lexicographic order.  Year keys in this repository are
four-digit decimal strings, for which Python's string ordering coincides with
the numeric ordering used here, and `str`/`int` conversions of the counts are
bijective, so counts stay `ℤ`. -/

/-- One failure mode of the Python code, as raised by the interpreter. -/
inductive PyErr where
  | zeroDiv
  | indexErr
deriving DecidableEq, Repr

/-- Lexicographic order on (year, count) pairs, as Python compares tuples. -/
def pairLe (p q : ℤ × ℤ) : Bool :=
  p.1 < q.1 || (p.1 == q.1 && p.2 ≤ q.2)

/-- Insert a pair into a sorted list (auxiliary for `sortPairs`). -/
def insertPair (p : ℤ × ℤ) : List (ℤ × ℤ) → List (ℤ × ℤ)
  | [] => [p]
  | q :: rest => if pairLe p q then p :: q :: rest else q :: insertPair p rest

/-- `sorted(data.items())`: insertion sort in lexicographic pair order. -/
def sortPairs : List (ℤ × ℤ) → List (ℤ × ℤ)
  | [] => []
  | p :: rest => insertPair p (sortPairs rest)

/-- Python dict assignment `m[k] = v`: overwrite the value if the key is
present (keeping its position), otherwise append the new pair at the end. -/
def setKey (m : List (ℤ × ℤ)) (k v : ℤ) : List (ℤ × ℤ) :=
  if m.any (fun p => p.1 == k) then
    m.map (fun p => if p.1 == k then (k, v) else p)
  else m ++ [(k, v)]

/-- Python's `round(x, 6)` on a value exactly representable: round half to
even at the sixth decimal. -/
def roundHalfEven (q : ℚ) : ℤ :=
  let f := ⌊q⌋
  let r := q - (f : ℚ)
  if r < 1 / 2 then f
  else if 1 / 2 < r then f + 1
  else if f % 2 = 0 then f else f + 1

/-- `round(x, 6)`. -/
def pyRound6 (q : ℚ) : ℚ :=
  (roundHalfEven (q * 1000000) : ℚ) / 1000000

/-- Python's `int(x)` on a float: truncation toward zero. -/
def pyTrunc (q : ℚ) : ℤ :=
  if q < 0 then -⌊-q⌋ else ⌊q⌋

/-- The `for year, count in sorted_data` loop of `divide_data`
(`main.py:190-230`).  `N` is the shard count (positive when this loop runs),
`target` the float `total_count / n`, `parts` the `result` list of dicts,
`pidx` the `part_index`, `cur` the running `current_count`.  Both `break`
statements return the pair `(result, part_index)` early. -/
def ddLoop (N : ℕ) (target : ℚ) :
    List (ℤ × ℤ) → List (List (ℤ × ℤ)) → ℕ → ℚ → List (List (ℤ × ℤ)) × ℕ
  | [], parts, pidx, _cur => (parts, pidx)
  | (year, count) :: rest, parts, pidx, cur =>
    if cur + (count : ℚ) > target then
      -- split the year between the current part and the next
      let add_to_current := pyRound6 (target - cur)
      let parts := parts.set pidx (setKey (parts.getD pidx []) year (pyTrunc add_to_current))
      let pidx := pidx + 1
      if pidx ≥ N then (parts, pidx)
      else
        let add_to_next := pyRound6 ((count : ℚ) - add_to_current)
        let cur := add_to_next
        let parts := parts.set pidx (setKey (parts.getD pidx []) year (pyTrunc add_to_next))
        if |cur - target| < 1 / 1000000 then
          if pidx + 1 ≥ N then (parts, pidx + 1)
          else ddLoop N target rest parts (pidx + 1) 0
        else ddLoop N target rest parts pidx cur
    else
      -- the whole year fits in the current part
      let parts := parts.set pidx (setKey (parts.getD pidx []) year count)
      let cur := cur + (count : ℚ)
      if |cur - target| < 1 / 1000000 then
        if pidx + 1 ≥ N then (parts, pidx + 1)
        else ddLoop N target rest parts (pidx + 1) 0
      else ddLoop N target rest parts pidx cur

/-- `divide_data(data, n)` from `main.py:152-240`.

* `n = 0`: `target_count = total_count / n` raises `ZeroDivisionError`.
* `n < 0`: `result` is the empty list, so the first write
  `result[part_index][year]` raises `IndexError` whenever the data is
  non-empty; with empty data the function returns `[]`.
* `n > 0`: the main loop runs; afterwards, if `part_index < n` the remainder
  branch (`main.py:233-235`) reads `sorted_data[0][0]` (an `IndexError` on
  empty data) and, unless the first year is already a key of the last part,
  merges `dict(sorted_data[len(result[0]):])` into the last part.  Finally
  every part is rendered with sorted keys. -/
def divide_data (data : List (ℤ × ℤ)) (n : ℤ) : Except PyErr (List (List (ℤ × ℤ))) :=
  let sorted_data := sortPairs data
  let total_count : ℤ := (sorted_data.map Prod.snd).sum
  if n = 0 then .error .zeroDiv
  else if n < 0 then (if data = [] then .ok [] else .error .indexErr)
  else
    let N := n.toNat
    let target_count : ℚ := (total_count : ℚ) / (n : ℚ)
    let r := ddLoop N target_count sorted_data (List.replicate N []) 0 0
    let parts := r.1
    let pidx := r.2
    if pidx < N then
      match sorted_data with
      | [] => .error .indexErr
      | (y0, _) :: _ =>
        if (parts.getD (N - 1) []).any (fun p => p.1 == y0) then
          .ok (parts.map sortPairs)
        else
          let remaining := sorted_data.drop (parts.getD 0 []).length
          let parts := parts.set (N - 1)
            (remaining.foldl (fun m p => setKey m p.1 p.2) (parts.getD (N - 1) []))
          .ok (parts.map sortPairs)
    else .ok (parts.map sortPairs)

/-- Total count assigned to year `y` across all shard maps (a year appearing
in several shards contributes each of its per-shard counts). -/
def totalFor (parts : List (List (ℤ × ℤ))) (y : ℤ) : ℤ :=
  (parts.map (fun part => ((part.filter (fun p => p.1 == y)).map Prod.snd).sum)).sum

/-- Sum of the counts of an association list (`sum(data.values())`). -/
def sumZ (l : List (ℤ × ℤ)) : ℤ :=
  (l.map Prod.snd).sum

/-- `covers l a b`: the windows in `l` tile the day interval `[a, b]` exactly,
in order: the first window starts at `a`, consecutive windows are contiguous
(each starts the day after the previous one ends), windows are non-empty
(hence non-overlapping and strictly ordered), and the last window ends at `b`. -/
def covers : List (ℕ × ℕ) → ℕ → ℕ → Prop
  | [], a, b => a = b + 1
  | (s, e) :: rest, a, b => s = a ∧ s ≤ e ∧ e ≤ b ∧ covers rest (e + 1) b

/-! ## Traversal engine: the YEAR → WINDOW → PAGE → BATCH loops of
`main.py:344-456`

The loops are deterministic given the environment's answers, so they are
embedded as a function from an environment (how many windows each year has,
what each window probe and page fetch returns) and a loaded `ShardState` to
the list of traversal units processed plus the final state.  Network calls
and sinks appear only through the environment answers; `save_state` is
synchronous, so the `state` dict's fields at each point of the Python code
are exactly the fields threaded here. -/

/-- `DISPLAY_CASE` (`main.py:24`): page size of a paginated search request. -/
def DISPLAY_CASE : ℕ := 100

/-- `BATCH_SIZE` (`main.py:25`): number of records per processed batch. -/
def BATCH_SIZE : ℕ := 10

/-- The mutable fields of the persisted scraper state (`main.py:282-291`)
that drive the traversal. -/
structure ScrState where
  current_year_index : ℕ
  current_date_index : ℕ
  current_request : ℕ
  current_batch : ℕ
  completed : Bool
deriving DecidableEq, Repr

/-- One processed traversal unit, identified by its loop indices. -/
inductive TUnit where
  | year (i : ℕ)
  | window (i j : ℕ)
  | page (i j k : ℕ)
  | batch (i j k b : ℕ)
deriving DecidableEq, Repr

/-- Environment answers consumed by the traversal. -/
structure ScrEnv where
  /-- `len(years_list)`: number of years assigned to this shard. -/
  numYears : ℕ
  /-- `len(date_ranges_in_a_year)` for year index `i`. -/
  numWindows : ℕ → ℕ
  /-- Probe search for (year index, window index): `some totalRecords` when
  the response has a `reportrow`, `none` otherwise (`main.py:379-384`). -/
  search : ℕ → ℕ → Option ℕ
  /-- Page fetch for (year index, window index, request number):
  `some (len data)` on success, `none` when no results (`main.py:409-415`). -/
  fetchPage : ℕ → ℕ → ℕ → Option ℕ

/-- `for x in range(a, b)` as a fold, carrying (trace, state). -/
def forRange (a b : ℕ) (f : List TUnit × ScrState → ℕ → List TUnit × ScrState)
    (acc : List TUnit × ScrState) : List TUnit × ScrState :=
  (List.range' a (b - a)).foldl f acc

/-- The BATCH loop (`main.py:427-440`): for each batch index, persist it in
the state and process the batch. -/
def runBatches (i j k startBatch batchCount : ℕ)
    (acc : List TUnit × ScrState) : List TUnit × ScrState :=
  forRange startBatch batchCount
    (fun acc b =>
      let st := { acc.2 with current_batch := b }
      (acc.1 ++ [TUnit.batch i j k b], st))
    acc

/-- The PAGE loop (`main.py:397-442`): persist the request index (resetting
the batch index), fetch the page; an empty fetch is a no-op (`continue`);
otherwise `start_batch = state["current_batch"] if req_no ==
state["current_request"] else 0` is read from the state **after** the update
above, and the batches run. -/
def runPages (env : ScrEnv) (i j startReq totalReq : ℕ)
    (acc : List TUnit × ScrState) : List TUnit × ScrState :=
  forRange startReq totalReq
    (fun acc k =>
      let st := { acc.2 with current_request := k, current_batch := 0 }
      let acc := (acc.1 ++ [TUnit.page i j k], st)
      match env.fetchPage i j k with
      | none => acc
      | some len =>
        let startBatch := if k = st.current_request then st.current_batch else 0
        let batchCount := (len + BATCH_SIZE - 1) / BATCH_SIZE
        runBatches i j k startBatch batchCount acc)
    acc

/-- The WINDOW loop (`main.py:364-444`): entering window `j` persists
`current_date_index := j` and resets `current_request` and `current_batch`
to 0; a failed probe is a no-op (`continue`); otherwise
`total_requests = ceil(total_records / DISPLAY_CASE)` and `start_req =
state["current_request"] if (year_idx == current_year_index and date_idx ==
state["current_date_index"]) else 0` is read from the state **after** the
reset above. -/
def runWindows (env : ScrEnv) (i cyi0 startDate : ℕ)
    (acc : List TUnit × ScrState) : List TUnit × ScrState :=
  forRange startDate (env.numWindows i)
    (fun acc j =>
      let st := { acc.2 with current_date_index := j, current_request := 0, current_batch := 0 }
      let acc := (acc.1 ++ [TUnit.window i j], st)
      match env.search i j with
      | none => acc
      | some totalRecords =>
        let totalReq := (totalRecords + DISPLAY_CASE - 1) / DISPLAY_CASE
        let startReq := if i = cyi0 ∧ j = st.current_date_index then st.current_request else 0
        runPages env i j startReq totalReq acc)
    acc

/-- The YEAR loop and completion flag (`main.py:344-456`): `current_year_index`
is captured once before the loop; each year persists its index, computes
`start_date_idx = state["current_date_index"] if year_idx ==
current_year_index else 0`, runs the windows, and resets
`current_date_index` to 0; after the loop `completed` is set.  The loaded
state's `completed` flag is never read. -/
def runMain (env : ScrEnv) (st0 : ScrState) : List TUnit × ScrState :=
  let cyi0 := st0.current_year_index
  let acc :=
    forRange cyi0 env.numYears
      (fun acc i =>
        let st := { acc.2 with current_year_index := i }
        let acc := (acc.1 ++ [TUnit.year i], st)
        let startDate := if i = cyi0 then st.current_date_index else 0
        let acc := runWindows env i cyi0 startDate acc
        (acc.1, { acc.2 with current_date_index := 0 }))
      ([], st0)
  (acc.1, { acc.2 with completed := true })

/-! ## Startup sequence of `main` (`main.py:276-337`)

On a fresh run `main` constructs the scraper (whose `__init__` calls
`initialize_session`, a GET against the portal, `api.py:126-132`), issues a
probe `search_cases()` (`main.py:300`), fetches the year histogram
(`main.py:305`), and only then calls `divide_data(years, server_count)`
(`main.py:329`). -/

/-- Requests issued to the Source Client during startup. -/
inductive SourceEffect where
  | initSession
  | searchProbe
  | fetchYears
deriving DecidableEq, Repr

/-- The startup path of `main` on a fresh run with healthy collaborators:
the Source Client requests issued before `divide_data` is reached, and the
outcome of the `divide_data` call (`.error` propagates to the run-level
`except` handler at `main.py:460`). -/
def mainStartup (years : List (ℤ × ℤ)) (server_count : ℤ) :
    List SourceEffect × Except PyErr (List (List (ℤ × ℤ))) :=
  ([SourceEffect.initSession, SourceEffect.searchProbe, SourceEffect.fetchYears],
   divide_data years server_count)

/-- `state["years"] = {str(year): "0" for year in years}` (`main.py:318`):
a list-shaped year response initializes every year's count to zero. -/
def yearsFromList (years : List ℤ) : List (ℤ × ℤ) :=
  years.map (fun y => (y, 0))

/-! ## Batch processor: `batch_process_judgments` in `src/parser.py:275-290`

Judgment records are string-keyed dicts; the item function either returns a
record or raises, modelled by `Except String`.  On an exception the input
judgment itself, annotated with a `_processing_error` key carrying the
message, is appended in place of a result. -/

/-- A judgment record: a string-keyed dict. -/
abbrev JRec := List (String × String)

/-- Dict assignment for judgment records (same semantics as `setKey`). -/
def setField (m : List (String × String)) (k v : String) : List (String × String) :=
  if m.any (fun p => p.1 == k) then
    m.map (fun p => if p.1 == k then (k, v) else p)
  else m ++ [(k, v)]

/-- Dict lookup `m[k]`. -/
def getField (m : List (String × String)) (k : String) : Option String :=
  (m.find? (fun p => p.1 == k)).map Prod.snd

/-- `batch_process_judgments(judgments, processor_func)`: apply the item
function to each judgment in order; a raised exception is caught and the
input judgment, annotated with `_processing_error`, takes the result's
place. -/
def batch_process_judgments (judgments : List JRec)
    (processor_func : JRec → Except String JRec) : List JRec :=
  judgments.map (fun judgment =>
    match processor_func judgment with
    | .ok r => r
    | .error e => setField judgment "_processing_error" e)

/-! ## Retry harness: `retry_request` in `src/api.py:59-82`, and the actual
(unwrapped) `search_cases` request path (`src/api.py:424-442`)

A network interaction is modelled by an oracle mapping the attempt number to
`Except E ρ`: `.error` is a raised transient (`RequestException`-class)
failure, `.ok` a response. -/

/-- The `for attempt in range(max_retries + 1)` loop of the `retry_request`
wrapper: try the call; on failure record the backoff sleep
`retry_delay * (attempt + 1)` and retry while attempts remain (`fuel` counts
the attempts left after the current one); once the attempts are exhausted
re-raise the last exception.  Returns the outcome and the list of backoff
delays slept. -/
def retryAux {E α : Type} (f : ℕ → Except E α) (retry_delay : ℕ) :
    ℕ → ℕ → List ℕ → Except E α × List ℕ
  | 0, attempt, delays =>
    match f attempt with
    | .ok a => (.ok a, delays)
    | .error e => (.error e, delays ++ [retry_delay * (attempt + 1)])
  | fuel + 1, attempt, delays =>
    match f attempt with
    | .ok a => (.ok a, delays)
    | .error _ => retryAux f retry_delay fuel (attempt + 1) (delays ++ [retry_delay * (attempt + 1)])

/-- `retry_request(max_retries, retry_delay)` applied to a call with outcome
oracle `f`: up to `max_retries + 1` attempts with linear backoff. -/
def retry_request_run {E α : Type} (max_retries retry_delay : ℕ)
    (f : ℕ → Except E α) : Except E α × List ℕ :=
  retryAux f retry_delay max_retries 0 []

/-- The request path of `ECourtsScraper.search_cases` as written
(`src/api.py:424-442`): the decorators `@rate_limit`/`@retry_request` are
commented out (`src/api.py:330-331`), so exactly one request is issued
(oracle attempt 0); any exception is caught by the `try`/`except` and
converted to `None`, and a response without a `reportrow` key is also
`None`. -/
def search_cases_once {E ρ : Type} (hasReportrow : ρ → Bool)
    (oracle : ℕ → Except E ρ) : Option ρ :=
  match oracle 0 with
  | .error _ => none
  | .ok r => if hasReportrow r then some r else none

/-- Modelled from the spec: the behaviour claimed for the Source Client
wrappers ("Wraps calls to the Source Client ... retries up to a fixed bound
with linear backoff (`base * (attempt+1)`) ...; exhausting retries re-raises
to the caller"), i.e. the search request path wrapped in
`retry_request(max_retries=3, retry_delay=2)` as in the commented-out
decorator. -/
def search_cases_wrapped_spec {E ρ : Type} (hasReportrow : ρ → Bool)
    (oracle : ℕ → Except E ρ) : Except E (Option ρ) :=
  match (retry_request_run 3 2 oracle).1 with
  | .error e => .error e
  | .ok r => .ok (if hasReportrow r then some r else none)

/-! ## Concrete environments used when evaluating the traversal engine -/

/-- One year with one window holding 250 records (3 pages of up to 100) and
full pages of 10 records (1 batch each). -/
def env2 : ScrEnv :=
  { numYears := 1, numWindows := fun _ => 1,
    search := fun _ _ => some 250, fetchPage := fun _ _ _ => some 10 }

/-- Two years, one window each, 100 records per window (1 page, 1 batch). -/
def env3 : ScrEnv :=
  { numYears := 2, numWindows := fun _ => 1,
    search := fun _ _ => some 100, fetchPage := fun _ _ _ => some 10 }

/-! ## Claim-statement predicates -/

/-- Formalization of claim C1's guarantee for one input: every shard map
returned by `divide_data` exists and, summed across shards, gives each input
year back its original count up to the ±1 integer rounding a single split
point can introduce. -/
def reconstructsWithinRounding (data : List (ℤ × ℤ)) (n : ℤ) : Prop :=
  ∀ parts, divide_data data n = .ok parts →
    ∀ p ∈ data, (totalFor parts p.1 - p.2).natAbs ≤ 1

/-- Formalization of claim C4's guarantee for one input: every count in every
shard map returned by `divide_data` is non-negative. -/
def nonnegShards (data : List (ℤ × ℤ)) (n : ℤ) : Prop :=
  ∀ parts, divide_data data n = .ok parts →
    ∀ part ∈ parts, ∀ p ∈ part, 0 ≤ p.2

end Escr

/-! # Theorems -/

namespace Escr

/-! ## Window planner lemmas -/

theorem daysInYear_ge (y : ℤ) : 365 ≤ daysInYear y := by
  unfold daysInYear
  split <;> omega

theorem mkRangesAux_of_gt (fuel cur D step : ℕ) (h : D < cur) :
    mkRangesAux fuel cur D step = [] := by
  cases fuel with
  | zero => rfl
  | succ n =>
    unfold mkRangesAux
    rw [if_pos h]

theorem mkRangesAux_covers (step : ℕ) (hstep : 1 ≤ step) :
    ∀ fuel cur D, cur ≤ D → D + 1 - cur ≤ fuel →
      covers (mkRangesAux fuel cur D step) cur D := by
  intro fuel
  induction fuel with
  | zero => intro cur D hcur hfuel; omega
  | succ n ih =>
    intro cur D hcur hfuel
    unfold mkRangesAux
    rw [if_neg (by omega)]
    refine ⟨rfl, ?_, ?_, ?_⟩
    · omega
    · omega
    · by_cases he : min (cur + step - 1) D = D
      · rw [he, mkRangesAux_of_gt _ _ _ _ (by omega)]
        unfold covers
        rfl
      · exact ih _ _ (by omega) (by omega)

theorem mkRanges_covers (D step : ℕ) (hstep : 1 ≤ step) (hD : 1 ≤ D) :
    covers (mkRanges D step) 1 D :=
  mkRangesAux_covers step hstep (D + 1) 1 D hD (by omega)

theorem mkRangesAux_one :
    ∀ fuel cur D, D + 1 - cur ≤ fuel →
      mkRangesAux fuel cur D 1 = (List.range' cur (D + 1 - cur)).map (fun d => (d, d)) := by
  intro fuel
  induction fuel with
  | zero => intro cur D hfuel; rw [(by omega : D + 1 - cur = 0)]; rfl
  | succ n ih =>
    intro cur D hfuel
    by_cases hcur : cur > D
    · rw [mkRangesAux_of_gt _ _ _ _ hcur, (by omega : D + 1 - cur = 0)]
      rfl
    · unfold mkRangesAux
      rw [if_neg hcur]
      show (cur, min (cur + 1 - 1) D) :: mkRangesAux n (min (cur + 1 - 1) D + 1) D 1 = _
      rw [(by omega : min (cur + 1 - 1) D = cur), ih (cur + 1) D (by omega),
        (by omega : D + 1 - cur = (D + 1 - (cur + 1)) + 1), List.range'_succ, List.map_cons]

/-! ## C6 — window coverage -/

/-- **C6** (confirmed).  For every year and every count > 0, the windows
returned by `get_all_dates_in_year` are ordered, contiguous, non-overlapping,
and tile exactly days 1 (January 1) through `daysInYear year` (December 31,
with the final window truncated at year-end): the `covers` predicate. -/
theorem c6_window_coverage (year count : ℤ) (hc : 0 < count) :
    ∃ l, get_all_dates_in_year year count = some l ∧ covers l 1 (daysInYear year) := by
  have hne : count ≠ 0 := by omega
  have hD := daysInYear_ge year
  have hdg : date_gap count = some 1 ∨ date_gap count = some (-1) ∨
      (date_gap count = some (rawGap count) ∧ 1 ≤ rawGap count ∧ rawGap count ≤ 365) := by
    unfold date_gap
    rw [if_neg hne]
    split_ifs with h1 h2
    · exact Or.inl rfl
    · exact Or.inr (Or.inl rfl)
    · exact Or.inr (Or.inr ⟨rfl, by omega, by omega⟩)
  rcases hdg with h | h | ⟨h, hg1, hg365⟩
  · refine ⟨mkRanges (daysInYear year) 1, ?_, ?_⟩
    · simp [get_all_dates_in_year, h]
    · exact mkRanges_covers _ _ le_rfl (by omega)
  · refine ⟨[(1, daysInYear year)], ?_, ?_⟩
    · simp [get_all_dates_in_year, h]
    · exact ⟨rfl, by omega, le_rfl, rfl⟩
  · refine ⟨mkRanges (daysInYear year) (rawGap count).toNat, ?_, ?_⟩
    · simp only [get_all_dates_in_year, h]
      rw [if_neg (by omega : ¬ rawGap count = -1)]
    · exact mkRanges_covers _ _ (by omega) (by omega)

/-- Witness for C6 at year 2024, count 25. -/
theorem c6_window_coverage_witness :
    ∃ l, get_all_dates_in_year 2024 25 = some l ∧ covers l 1 (daysInYear 2024) :=
  c6_window_coverage 2024 25 (by decide)

/-! ## C7 — window density extremes -/

/-- **C7** (confirmed).  When the computed raw window length
`floor(200 / (count / 269))` is ≤ 0 the planner emits all one-day windows
(`(d, d)` for every day `d` of the year); when it exceeds 365 it emits the
single whole-year window; in particular year 2024 with count 25 yields
exactly `[("2024-01-01", "2024-12-31")]`. -/
theorem c7_density_extremes :
    (∀ year count : ℤ, count ≠ 0 → rawGap count ≤ 0 →
      get_all_dates_in_year year count =
        some ((List.range' 1 (daysInYear year)).map (fun d => (d, d)))) ∧
    (∀ year count : ℤ, count ≠ 0 → 365 < rawGap count →
      get_all_dates_in_year year count = some [(1, daysInYear year)]) ∧
    get_all_dates_in_year_str 2024 25 = some [("2024-01-01", "2024-12-31")] := by
  refine ⟨?_, ?_, ?_⟩
  · intro year count hne hraw
    have h : date_gap count = some 1 := by
      unfold date_gap
      rw [if_neg hne, if_pos hraw]
    simp only [get_all_dates_in_year, h]
    rw [if_neg (by decide : ¬ (1 : ℤ) = -1), (by rfl : (1 : ℤ).toNat = 1), mkRanges,
      mkRangesAux_one _ _ _ (by omega), (by omega : daysInYear year + 1 - 1 = daysInYear year)]
  · intro year count hne hraw
    have h : date_gap count = some (-1) := by
      unfold date_gap
      rw [if_neg hne, if_neg (by omega), if_pos (by omega)]
    simp [get_all_dates_in_year, h]
  · have hraw : rawGap 25 = 2152 := by
      unfold rawGap
      rw [Int.floor_eq_iff]
      norm_num
    have h : date_gap 25 = some (-1) := by
      unfold date_gap
      rw [if_neg (by decide), if_neg (by omega), if_pos (by omega)]
    have hy : get_all_dates_in_year 2024 25 = some [(1, 366)] := by
      simp [get_all_dates_in_year, h, daysInYear, isLeap]
    unfold get_all_dates_in_year_str
    rw [hy]
    rfl

/-- Witness for C7: count 53801 (raw length 0) gives all one-day windows and
count 25 (raw length 2152 > 365) gives the whole-year window of 2024. -/
theorem c7_density_extremes_witness :
    get_all_dates_in_year 2024 53801 =
      some ((List.range' 1 (daysInYear 2024)).map (fun d => (d, d))) ∧
    get_all_dates_in_year 2024 25 = some [(1, daysInYear 2024)] := by
  have h1 : rawGap 53801 = 0 := by
    unfold rawGap
    rw [Int.floor_eq_iff]
    norm_num
  have h2 : rawGap 25 = 2152 := by
    unfold rawGap
    rw [Int.floor_eq_iff]
    norm_num
  exact ⟨c7_density_extremes.1 2024 53801 (by decide) (by omega),
    c7_density_extremes.2.1 2024 25 (by decide) (by omega)⟩

/-! ## C10 — zero counts crash the planner and are supplied by the driver -/

/-- **C10** (confirmed).  `date_gap 0` raises an unguarded
`ZeroDivisionError` (modelled as `none`), so `get_all_dates_in_year year 0`
fails for every year — count > 0 is a necessary precondition — while the
driver's list-shaped year handling (`main.py:318`) initializes every year's
count to 0. -/
theorem c10_zero_count_crash :
    date_gap 0 = none ∧ (∀ year : ℤ, get_all_dates_in_year year 0 = none) ∧
    (∀ years : List ℤ, ∀ p ∈ yearsFromList years, p.2 = 0) := by
  refine ⟨rfl, fun year => rfl, ?_⟩
  intro years p hp
  rcases List.mem_map.mp hp with ⟨y, _, rfl⟩
  rfl

/-- Witness for C10 at year 2024 and year list [2020]. -/
theorem c10_zero_count_crash_witness :
    get_all_dates_in_year 2024 0 = none ∧ ((2020 : ℤ), (0 : ℤ)).2 = 0 :=
  ⟨c10_zero_count_crash.2.1 2024,
   c10_zero_count_crash.2.2 [2020] (2020, 0) (by decide)⟩

/-! ## Rounding and truncation on integer-valued rationals

Every value flowing through the concrete `divide_data` runs analysed below is
an integer, where `round(x, 6)` and `int(x)` act as the identity (and the
float and rational computations agree exactly). -/

theorem pyRound6_intCast (z : ℤ) : pyRound6 (z : ℚ) = (z : ℚ) := by
  unfold pyRound6 roundHalfEven
  rw [show ((z : ℚ) * 1000000) = ((z * 1000000 : ℤ) : ℚ) by push_cast; ring, Int.floor_intCast]
  rw [if_pos (by norm_num)]
  push_cast
  ring

theorem pyTrunc_intCast (z : ℤ) : pyTrunc (z : ℚ) = z := by
  unfold pyTrunc
  by_cases h : (z : ℚ) < 0
  · rw [if_pos h, show -(z : ℚ) = ((-z : ℤ) : ℚ) by push_cast; ring, Int.floor_intCast]
    ring
  · rw [if_neg h, Int.floor_intCast]

theorem pyRound6_n2 : pyRound6 (2 : ℚ) = 2 := by
  rw [show (2 : ℚ) = ((2 : ℤ) : ℚ) by norm_num, pyRound6_intCast]

theorem pyRound6_n3 : pyRound6 (3 : ℚ) = 3 := by
  rw [show (3 : ℚ) = ((3 : ℤ) : ℚ) by norm_num, pyRound6_intCast]

theorem pyRound6_n4 : pyRound6 (4 : ℚ) = 4 := by
  rw [show (4 : ℚ) = ((4 : ℤ) : ℚ) by norm_num, pyRound6_intCast]

theorem pyRound6_n6 : pyRound6 (6 : ℚ) = 6 := by
  rw [show (6 : ℚ) = ((6 : ℤ) : ℚ) by norm_num, pyRound6_intCast]

theorem pyRound6_n7 : pyRound6 (7 : ℚ) = 7 := by
  rw [show (7 : ℚ) = ((7 : ℤ) : ℚ) by norm_num, pyRound6_intCast]

theorem pyRound6_n8 : pyRound6 (8 : ℚ) = 8 := by
  rw [show (8 : ℚ) = ((8 : ℤ) : ℚ) by norm_num, pyRound6_intCast]

theorem pyRound6_n12 : pyRound6 (12 : ℚ) = 12 := by
  rw [show (12 : ℚ) = ((12 : ℤ) : ℚ) by norm_num, pyRound6_intCast]

theorem pyRound6_m2 : pyRound6 (-2 : ℚ) = -2 := by
  rw [show (-2 : ℚ) = ((-2 : ℤ) : ℚ) by norm_num, pyRound6_intCast]

theorem pyRound6_m3 : pyRound6 (-3 : ℚ) = -3 := by
  rw [show (-3 : ℚ) = ((-3 : ℤ) : ℚ) by norm_num, pyRound6_intCast]

theorem pyTrunc_n2 : pyTrunc (2 : ℚ) = 2 := by
  rw [show (2 : ℚ) = ((2 : ℤ) : ℚ) by norm_num, pyTrunc_intCast]

theorem pyTrunc_n3 : pyTrunc (3 : ℚ) = 3 := by
  rw [show (3 : ℚ) = ((3 : ℤ) : ℚ) by norm_num, pyTrunc_intCast]

theorem pyTrunc_n4 : pyTrunc (4 : ℚ) = 4 := by
  rw [show (4 : ℚ) = ((4 : ℤ) : ℚ) by norm_num, pyTrunc_intCast]

theorem pyTrunc_n6 : pyTrunc (6 : ℚ) = 6 := by
  rw [show (6 : ℚ) = ((6 : ℤ) : ℚ) by norm_num, pyTrunc_intCast]

theorem pyTrunc_n7 : pyTrunc (7 : ℚ) = 7 := by
  rw [show (7 : ℚ) = ((7 : ℤ) : ℚ) by norm_num, pyTrunc_intCast]

theorem pyTrunc_n8 : pyTrunc (8 : ℚ) = 8 := by
  rw [show (8 : ℚ) = ((8 : ℤ) : ℚ) by norm_num, pyTrunc_intCast]

theorem pyTrunc_n12 : pyTrunc (12 : ℚ) = 12 := by
  rw [show (12 : ℚ) = ((12 : ℤ) : ℚ) by norm_num, pyTrunc_intCast]

theorem pyTrunc_m2 : pyTrunc (-2 : ℚ) = -2 := by
  rw [show (-2 : ℚ) = ((-2 : ℤ) : ℚ) by norm_num, pyTrunc_intCast]

theorem pyTrunc_m3 : pyTrunc (-3 : ℚ) = -3 := by
  rw [show (-3 : ℚ) = ((-3 : ℤ) : ℚ) by norm_num, pyTrunc_intCast]

/-! ## Concrete `divide_data` runs -/

/-- Evaluation of `divide_data` on `{1: 10, 2: 10, 3: 10}` with 5 shards:
the split arithmetic drives `part_index` to 3 with negative and duplicated
assignments, and the remainder branch then merges years 2 and 3 (already
distributed) into the last shard again. -/
theorem divide_data_c1cex :
    divide_data [(1, 10), (2, 10), (3, 10)] 5 =
      .ok [[(1, 6)], [(1, 4), (2, 2)], [(2, 8), (3, -2)], [(3, 12)], [(2, 10), (3, 10)]] := by
  norm_num [divide_data, ddLoop, setKey, sortPairs, insertPair, pairLe,
    pyRound6_n2, pyRound6_n4, pyRound6_n6, pyRound6_n8, pyRound6_n12, pyRound6_m2,
    pyTrunc_n2, pyTrunc_n4, pyTrunc_n6, pyTrunc_n8, pyTrunc_n12, pyTrunc_m2, List.replicate,
    Int.toNat_ofNat]
  rw [if_neg ?hc]
  case hc =>
    have hloop : ddLoop (Int.toNat 5)
        ((((List.map Prod.snd (sortPairs [((1 : ℤ), (10 : ℤ)), (2, 10), (3, 10)])).sum : ℤ) : ℚ) /
          (((5 : ℤ) : ℚ)))
        (sortPairs [((1 : ℤ), (10 : ℤ)), (2, 10), (3, 10)])
        (List.replicate (Int.toNat 5) []) 0 0 =
        ([[(1, 6)], [(1, 4), (2, 2)], [(2, 8), (3, -2)], [(3, 12)], []], 3) := by
      norm_num [ddLoop, setKey, sortPairs, insertPair, pairLe,
        pyRound6_n2, pyRound6_n4, pyRound6_n6, pyRound6_n8, pyRound6_n12, pyRound6_m2,
        pyTrunc_n2, pyTrunc_n4, pyTrunc_n6, pyTrunc_n8, pyTrunc_n12, pyTrunc_m2,
        Int.toNat_ofNat, List.replicate]
    rw [hloop]
    decide
  rfl

/-- Evaluation of `divide_data` on `{1: 1, 2: 10, 3: 1}` with 3 shards:
the second split computes `round(target - current) = -3`, assigning a
negative count to year 3 in the second shard. -/
theorem divide_data_c4cex :
    divide_data [(1, 1), (2, 10), (3, 1)] 3 =
      .ok [[(1, 1), (2, 3)], [(2, 7), (3, -3)], [(3, 4)]] := by
  norm_num [divide_data, ddLoop, setKey, sortPairs, insertPair, pairLe,
    pyRound6_n3, pyRound6_n4, pyRound6_n7, pyRound6_m3,
    pyTrunc_n3, pyTrunc_n4, pyTrunc_n7, pyTrunc_m3, List.replicate]

/-! ## C1 — partition completeness fails -/

/-- **C1 counterexample.**  On the year-count map `{1: 10, 2: 10, 3: 10}`
with N = 5 shards, `divide_data` assigns year 2 a total of 2 + 8 + 10 = 20
across shards (its original count is 10): the remainder branch at
`main.py:233-235` re-appends years 2 and 3 to the last shard even though they
were already distributed, so concatenating the shard maps does not
reconstruct the input (|20 − 10| = 10 is far beyond split rounding). -/
theorem c1_counterexample :
    ¬ reconstructsWithinRounding [(1, 10), (2, 10), (3, 10)] 5 := by
  intro h
  have h2 := h _ divide_data_c1cex (2, 10) (by decide)
  exact absurd h2 (by decide)

theorem sumZ_nonneg (l : List (ℤ × ℤ)) (h : ∀ p ∈ l, 0 ≤ p.2) : 0 ≤ sumZ l := by
  induction l with
  | nil => simp [sumZ]
  | cons p rest ih =>
    have hp := h p (List.mem_cons_self _ _)
    have hr := ih (fun q hq => h q (List.mem_cons_of_mem _ hq))
    simp only [sumZ, List.map_cons, List.sum_cons] at *
    omega

theorem sumZ_ge_one (l : List (ℤ × ℤ)) (hne : l ≠ []) (h : ∀ p ∈ l, 1 ≤ p.2) :
    1 ≤ sumZ l := by
  cases l with
  | nil => exact absurd rfl hne
  | cons p rest =>
    have hp := h p (List.mem_cons_self _ _)
    have hr := sumZ_nonneg rest (fun q hq => by
      have := h q (List.mem_cons_of_mem _ hq)
      omega)
    simp only [sumZ, List.map_cons, List.sum_cons] at *
    omega

theorem setKey_of_not_mem (m : List (ℤ × ℤ)) (k v : ℤ) (h : ∀ p ∈ m, p.1 ≠ k) :
    setKey m k v = m ++ [(k, v)] := by
  have hany : m.any (fun p => p.1 == k) = false := by
    rw [List.any_eq_false]
    intro p hp
    simp [h p hp]
  simp [setKey, hany]

theorem mem_setKey (m : List (ℤ × ℤ)) (k v : ℤ) (q : ℤ × ℤ) (hq : q ∈ setKey m k v) :
    q = (k, v) ∨ q ∈ m := by
  unfold setKey at hq
  split at hq
  · rcases List.mem_map.mp hq with ⟨p, hp, hpq⟩
    by_cases hk : p.1 == k
    · rw [if_pos hk] at hpq
      exact Or.inl hpq.symm
    · rw [if_neg hk] at hpq
      exact Or.inr (hpq ▸ hp)
  · rcases List.mem_append.mp hq with h | h
    · exact Or.inr h
    · exact Or.inl (List.mem_singleton.mp h)

theorem mem_foldl_setKey :
    ∀ (rem : List (ℤ × ℤ)) (m0 : List (ℤ × ℤ)) (q : ℤ × ℤ),
      q ∈ rem.foldl (fun m p => setKey m p.1 p.2) m0 → q ∈ m0 ∨ q ∈ rem := by
  intro rem
  induction rem with
  | nil => exact fun m0 q hq => Or.inl hq
  | cons p rest ih =>
    intro m0 q hq
    rcases ih (setKey m0 p.1 p.2) q hq with h | h
    · rcases mem_setKey _ _ _ _ h with h' | h'
      · exact Or.inr (h' ▸ List.mem_cons_self _ _)
      · exact Or.inl h'
    · exact Or.inr (List.mem_cons_of_mem _ h)

theorem mem_insertPair (p q : ℤ × ℤ) :
    ∀ l : List (ℤ × ℤ), q ∈ insertPair p l ↔ q = p ∨ q ∈ l := by
  intro l
  induction l with
  | nil => simp [insertPair]
  | cons r rest ih =>
    unfold insertPair
    split
    · simp [List.mem_cons]
    · simp only [List.mem_cons, ih]
      tauto

theorem mem_sortPairs (q : ℤ × ℤ) : ∀ l : List (ℤ × ℤ), q ∈ sortPairs l ↔ q ∈ l := by
  intro l
  induction l with
  | nil => simp [sortPairs]
  | cons p rest ih =>
    simp only [sortPairs, mem_insertPair, ih, List.mem_cons]

theorem sortPairs_eq_of_pairwise :
    ∀ l : List (ℤ × ℤ), List.Pairwise (fun p q : ℤ × ℤ => p.1 < q.1) l → sortPairs l = l := by
  intro l
  induction l with
  | nil => intro _; rfl
  | cons p rest ih =>
    intro hpw
    rcases List.pairwise_cons.mp hpw with ⟨hhead, htail⟩
    show insertPair p (sortPairs rest) = p :: rest
    rw [ih htail]
    cases rest with
    | nil => rfl
    | cons r rs =>
      unfold insertPair
      rw [if_pos]
      simp [pairLe, hhead r (List.mem_cons_self _ _)]

/-- Main-loop invariant for a single shard (N = 1) over positive counts:
no split is ever taken (the guard `current + count > target` would force the
consumed total over the grand total), the early exact-hit only fires at the
last year, and the single part accumulates the input in order. -/
theorem ddLoop_one_pos (S : ℚ) :
    ∀ (l m : List (ℤ × ℤ)) (cur : ℚ), l ≠ [] →
      (∀ p ∈ l, 1 ≤ p.2) →
      (∀ p ∈ m, ∀ q ∈ l, p.1 < q.1) →
      List.Pairwise (fun p q : ℤ × ℤ => p.1 < q.1) l →
      cur + ((sumZ l : ℤ) : ℚ) = S →
      ddLoop 1 S l [m] 0 cur = ([m ++ l], 1) := by
  intro l
  induction l with
  | nil => intro m cur hne; exact absurd rfl hne
  | cons yc tl ih =>
    intro m cur _ hpos hsep hpw hS
    obtain ⟨y, c⟩ := yc
    have hsum : sumZ ((y, c) :: tl) = c + sumZ tl := by simp [sumZ]
    have htl_nonneg : 0 ≤ sumZ tl :=
      sumZ_nonneg tl (fun q hq => by
        have := hpos q (List.mem_cons_of_mem _ hq); omega)
    have hguard : ¬ (cur + (c : ℚ) > S) := by
      rw [← hS, hsum]
      push_cast
      intro hgt
      have : ((sumZ tl : ℤ) : ℚ) < 0 := by linarith
      rw [← Int.cast_zero] at this
      exact absurd (Int.cast_lt.mp this) (by omega)
    have hsetKey : setKey m y c = m ++ [(y, c)] :=
      setKey_of_not_mem m y c (fun p hp => by
        have := hsep p hp (y, c) (List.mem_cons_self _ _)
        omega)
    rw [ddLoop]
    rw [if_neg hguard]
    simp only [List.getD_cons_zero, List.set_cons_zero, hsetKey]
    cases tl with
    | nil =>
      have hcur : cur + (c : ℚ) = S := by
        rw [← hS, hsum]
        push_cast [sumZ]
        simp
      rw [if_pos (by rw [hcur]; norm_num), if_pos (by omega)]
    | cons t ts =>
      have htl_one : 1 ≤ sumZ (t :: ts) :=
        sumZ_ge_one _ (by simp) (fun q hq => hpos q (List.mem_cons_of_mem _ hq))
      have habs : ¬ (|cur + (c : ℚ) - S| < 1 / 1000000) := by
        rw [← hS, hsum]
        push_cast
        rw [show cur + (c : ℚ) - (cur + ((c : ℚ) + (sumZ (t :: ts) : ℚ))) =
          -((sumZ (t :: ts) : ℚ)) by ring, abs_neg,
          abs_of_nonneg (by exact_mod_cast htl_nonneg)]
        intro hlt
        have : ((sumZ (t :: ts) : ℤ) : ℚ) < ((1 : ℤ) : ℚ) := by push_cast; linarith
        exact absurd (Int.cast_lt.mp this) (by omega)
      rw [if_neg habs]
      have hih := ih (m ++ [(y, c)]) (cur + (c : ℚ)) (by simp)
        (fun q hq => hpos q (List.mem_cons_of_mem _ hq))
        (fun p hp q hq => by
          rcases List.mem_append.mp hp with h | h
          · exact hsep p h q (List.mem_cons_of_mem _ hq)
          · rw [List.mem_singleton.mp h]
            exact (List.pairwise_cons.mp hpw).1 q hq)
        (List.pairwise_cons.mp hpw).2
        (by rw [← hS, hsum]; push_cast; ring)
      rw [hih, List.append_assoc]
      rfl

/-- **C1 amended** (the nearby statement that holds).  For N = 1 and a
non-empty year-count map with strictly positive counts, `divide_data`
returns the input map as the single shard: every year with its original
count, nothing omitted, nothing duplicated. -/
theorem c1_amended_single_shard :
    ∀ data : List (ℤ × ℤ), data ≠ [] →
      List.Pairwise (fun p q : ℤ × ℤ => p.1 < q.1) data →
      (∀ p ∈ data, 1 ≤ p.2) →
      divide_data data 1 = .ok [data] := by
  intro data hne hpw hpos
  have hsort : sortPairs data = data := sortPairs_eq_of_pairwise data hpw
  have htarget : (0 : ℚ) + ((sumZ data : ℤ) : ℚ) =
      (((data.map Prod.snd).sum : ℤ) : ℚ) / (((1 : ℤ) : ℚ)) := by
    push_cast [sumZ]
    ring
  have hloop := ddLoop_one_pos _ data [] 0 hne hpos (by simp) hpw htarget
  simp only [divide_data, hsort]
  rw [if_neg (by decide), if_neg (by decide)]
  simp only [Int.toNat_one, List.replicate_one]
  rw [if_neg ?hcond]
  case hcond =>
    rw [hloop]
    simp
  rw [hloop]
  simp only [List.nil_append, List.map_cons, List.map_nil, hsort]

/-- Witness for the amended C1 at `{2020: 100, 2021: 50}`. -/
theorem c1_amended_single_shard_witness :
    divide_data [((2020 : ℤ), (100 : ℤ)), (2021, 50)] 1 = .ok [[(2020, 100), (2021, 50)]] :=
  c1_amended_single_shard _ (by decide) (by decide) (by decide)

/-! ## C4 — shard counts can be negative -/

/-- **C4 counterexample.**  The map `{1: 1, 2: 10, 3: 1}` has non-negative
counts and N = 3 ≥ 1, yet `divide_data` puts the count −3 for year 3 into
the second shard: the split amount `round(target - current, 6)` is negative
whenever `current_count` has already overshot the per-shard target. -/
theorem c4_counterexample :
    (∀ p ∈ [((1 : ℤ), (1 : ℤ)), (2, 10), (3, 1)], 0 ≤ p.2) ∧ (1 : ℤ) ≤ 3 ∧
      ¬ nonnegShards [(1, 1), (2, 10), (3, 1)] 3 := by
  refine ⟨by decide, by decide, ?_⟩
  intro h
  have h2 := h _ divide_data_c4cex [(2, 7), (3, -3)] (by decide) (3, -3) (by decide)
  exact absurd h2 (by decide)

/-- Main-loop invariant for a single shard over non-negative counts: the
split branch is unreachable, so every pair stored in the single part comes
from the accumulator or the input. -/
theorem ddLoop_one_mem (S : ℚ) :
    ∀ (l m : List (ℤ × ℤ)) (cur : ℚ),
      (∀ p ∈ l, 0 ≤ p.2) →
      cur + ((sumZ l : ℤ) : ℚ) ≤ S →
      ∃ m' pidx, ddLoop 1 S l [m] 0 cur = ([m'], pidx) ∧
        ∀ q ∈ m', q ∈ m ∨ q ∈ l := by
  intro l
  induction l with
  | nil =>
    intro m cur _ _
    exact ⟨m, 0, rfl, fun q hq => Or.inl hq⟩
  | cons yc tl ih =>
    intro m cur hpos hle
    obtain ⟨y, c⟩ := yc
    have hsum : sumZ ((y, c) :: tl) = c + sumZ tl := by simp [sumZ]
    have htl_nonneg : 0 ≤ sumZ tl :=
      sumZ_nonneg tl (fun q hq => hpos q (List.mem_cons_of_mem _ hq))
    have hguard : ¬ (cur + (c : ℚ) > S) := by
      rw [hsum] at hle
      push_cast at hle
      intro hgt
      have hc : (0 : ℚ) ≤ ((sumZ tl : ℤ) : ℚ) := by exact_mod_cast htl_nonneg
      linarith
    rw [ddLoop]
    rw [if_neg hguard]
    simp only [List.getD_cons_zero, List.set_cons_zero]
    by_cases hexact : |cur + (c : ℚ) - S| < 1 / 1000000
    · rw [if_pos hexact, if_pos (by omega)]
      refine ⟨setKey m y c, 1, rfl, fun q hq => ?_⟩
      rcases mem_setKey _ _ _ _ hq with h | h
      · exact Or.inr (h ▸ List.mem_cons_self _ _)
      · exact Or.inl h
    · rw [if_neg hexact]
      obtain ⟨m', pidx, heq, hmem⟩ := ih (setKey m y c) (cur + (c : ℚ))
        (fun q hq => hpos q (List.mem_cons_of_mem _ hq))
        (by rw [hsum] at hle; push_cast at hle ⊢; linarith)
      refine ⟨m', pidx, heq, fun q hq => ?_⟩
      rcases hmem q hq with h | h
      · rcases mem_setKey _ _ _ _ h with h' | h'
        · exact Or.inr (h' ▸ List.mem_cons_self _ _)
        · exact Or.inl h'
      · exact Or.inr (List.mem_cons_of_mem _ h)

/-! Helper lemmas for the two-shard analysis: rounding is the identity on
half-integers (the only values arising when the target is `total / 2`),
truncation preserves non-negativity, and the `1e-6` exact-hit test can only
fire on half-integers when the difference is exactly zero. -/

theorem pyRound6_n1 : pyRound6 (1 : ℚ) = 1 := by
  rw [show (1 : ℚ) = ((1 : ℤ) : ℚ) by norm_num, pyRound6_intCast]

theorem pyTrunc_n1 : pyTrunc (1 : ℚ) = 1 := by
  rw [show (1 : ℚ) = ((1 : ℤ) : ℚ) by norm_num, pyTrunc_intCast]

theorem pyRound6_eq_self_of_half (q : ℚ) (z : ℤ) (hq : q = (z : ℚ) / 2) :
    pyRound6 q = q := by
  subst hq
  unfold pyRound6 roundHalfEven
  rw [show ((z : ℚ) / 2 * 1000000) = ((z * 500000 : ℤ) : ℚ) by push_cast; ring,
    Int.floor_intCast]
  rw [if_pos (by norm_num)]
  push_cast
  ring

theorem pyTrunc_nonneg (q : ℚ) (h : 0 ≤ q) : 0 ≤ pyTrunc q := by
  unfold pyTrunc
  rw [if_neg (not_lt.mpr h)]
  exact Int.floor_nonneg.mpr h

theorem half_small_eq_zero (z : ℤ) (h : |(z : ℚ) / 2| < 1 / 1000000) : z = 0 := by
  by_contra hz
  have h1 : (1 : ℤ) ≤ |z| := by
    rcases abs_cases z with ⟨h', _⟩ | ⟨h', _⟩ <;> rw [h'] <;> omega
  have h2 : (1 : ℚ) ≤ |(z : ℚ)| := by
    rw [← Int.cast_abs]
    exact_mod_cast h1
  rw [abs_div] at h
  have h3 : |(2 : ℚ)| = 2 := by norm_num
  rw [h3] at h
  linarith

theorem getD_pair_one {α : Type} (a b d : α) : [a, b].getD 1 d = b := rfl

theorem set_pair_one {α : Type} (a b x : α) : [a, b].set 1 x = [a, x] := rfl

theorem getD_mem_or {α : Type} :
    ∀ (l : List α) (k : ℕ) (d : α), l.getD k d ∈ l ∨ l.getD k d = d := by
  intro l
  induction l with
  | nil => intro k d; exact Or.inr (by cases k <;> rfl)
  | cons a t ih =>
    intro k d
    cases k with
    | zero => exact Or.inl (by rw [List.getD_cons_zero]; exact List.mem_cons_self _ _)
    | succ m =>
      rcases ih m d with h | h
      · exact Or.inl (by rw [List.getD_cons_succ]; exact List.mem_cons_of_mem _ h)
      · exact Or.inr (by rw [List.getD_cons_succ]; exact h)

/-- Loop invariant for N = 2 once `part_index = 1` (the last shard): the
split guard `current + count > target` would need the consumed total plus
the next count to exceed the grand total, which non-negative counts forbid,
so only whole input pairs are stored into the last part. -/
theorem ddLoop_two_phaseB (target : ℚ) :
    ∀ (l m0 m1 : List (ℤ × ℤ)) (cur : ℚ),
      (∀ p ∈ l, 0 ≤ p.2) →
      cur + ((sumZ l : ℤ) : ℚ) ≤ target →
      ∃ m1' pidx, ddLoop 2 target l [m0, m1] 1 cur = ([m0, m1'], pidx) ∧
        ∀ q ∈ m1', q ∈ m1 ∨ q ∈ l := by
  intro l
  induction l with
  | nil =>
    intro m0 m1 cur _ _
    exact ⟨m1, 1, rfl, fun q hq => Or.inl hq⟩
  | cons yc tl ih =>
    intro m0 m1 cur hpos hle
    obtain ⟨y, c⟩ := yc
    have hsum : sumZ ((y, c) :: tl) = c + sumZ tl := by simp [sumZ]
    have htl_nonneg : 0 ≤ sumZ tl :=
      sumZ_nonneg tl (fun q hq => hpos q (List.mem_cons_of_mem _ hq))
    have hguard : ¬ (cur + (c : ℚ) > target) := by
      rw [hsum] at hle
      push_cast at hle
      intro hgt
      have hc : (0 : ℚ) ≤ ((sumZ tl : ℤ) : ℚ) := by exact_mod_cast htl_nonneg
      linarith
    rw [ddLoop]
    rw [if_neg hguard]
    simp only [getD_pair_one, set_pair_one]
    by_cases hexact : |cur + (c : ℚ) - target| < 1 / 1000000
    · rw [if_pos hexact, if_pos (by omega)]
      refine ⟨setKey m1 y c, 1 + 1, rfl, fun q hq => ?_⟩
      rcases mem_setKey _ _ _ _ hq with h | h
      · exact Or.inr (h ▸ List.mem_cons_self _ _)
      · exact Or.inl h
    · rw [if_neg hexact]
      obtain ⟨m1', pidx, heq, hmem⟩ := ih m0 (setKey m1 y c) (cur + (c : ℚ))
        (fun q hq => hpos q (List.mem_cons_of_mem _ hq))
        (by rw [hsum] at hle; push_cast at hle ⊢; linarith)
      refine ⟨m1', pidx, heq, fun q hq => ?_⟩
      rcases hmem q hq with h | h
      · rcases mem_setKey _ _ _ _ h with h' | h'
        · exact Or.inr (h' ▸ List.mem_cons_self _ _)
        · exact Or.inl h'
      · exact Or.inr (List.mem_cons_of_mem _ h)

/-- Loop invariant for N = 2 while `part_index = 0`: the running count is an
integer bounded by `target = total / 2`, so a split stores the non-negative
amounts `target - current` and `current + count - target`, and the `1e-6`
exact-hit test fires only on an exact half-integer equality; every value
stored in either part is non-negative. -/
theorem ddLoop_two_phaseA (target : ℚ) (S : ℤ) (htarget : target = (S : ℚ) / 2) :
    ∀ (l m0 m1 : List (ℤ × ℤ)) (curZ : ℤ),
      (∀ p ∈ l, 0 ≤ p.2) →
      (∀ q ∈ m0, 0 ≤ q.2) →
      (∀ q ∈ m1, 0 ≤ q.2) →
      (curZ : ℚ) ≤ target →
      curZ + sumZ l = S →
      ∃ parts' pidx, ddLoop 2 target l [m0, m1] 0 ((curZ : ℤ) : ℚ) = (parts', pidx) ∧
        ∀ part ∈ parts', ∀ q ∈ part, 0 ≤ q.2 := by
  intro l
  induction l with
  | nil =>
    intro m0 m1 curZ _ hm0 hm1 _ _
    refine ⟨[m0, m1], 0, rfl, ?_⟩
    intro part hpart q hq
    rcases List.mem_cons.mp hpart with rfl | hpart'
    · exact hm0 q hq
    · rw [List.mem_singleton.mp hpart'] at hq
      exact hm1 q hq
  | cons yc tl ih =>
    intro m0 m1 curZ hpos hm0 hm1 hle hSeq
    obtain ⟨y, c⟩ := yc
    have hc : (0 : ℤ) ≤ c := hpos (y, c) (List.mem_cons_self _ _)
    have hsum : sumZ ((y, c) :: tl) = c + sumZ tl := by simp [sumZ]
    have hZ : curZ + (c + sumZ tl) = S := by rw [← hsum]; exact hSeq
    have htl_nonneg : 0 ≤ sumZ tl :=
      sumZ_nonneg tl (fun q hq => hpos q (List.mem_cons_of_mem _ hq))
    have hpos_tl : ∀ p ∈ tl, (0 : ℤ) ≤ p.2 :=
      fun p hp => hpos p (List.mem_cons_of_mem _ hp)
    rw [ddLoop]
    by_cases hguard : ((curZ : ℤ) : ℚ) + (c : ℚ) > target
    · rw [if_pos hguard]
      have hid1 : pyRound6 (target - ((curZ : ℤ) : ℚ)) = target - ((curZ : ℤ) : ℚ) :=
        pyRound6_eq_self_of_half _ (S - 2 * curZ) (by rw [htarget]; push_cast; ring)
      have hv0 : 0 ≤ pyTrunc (target - ((curZ : ℤ) : ℚ)) := pyTrunc_nonneg _ (by linarith)
      simp only [List.getD_cons_zero, List.set_cons_zero, Nat.zero_add]
      rw [if_neg (by omega : ¬ (1 : ℕ) ≥ 2)]
      simp only [getD_pair_one, set_pair_one]
      rw [hid1]
      have hid2 : pyRound6 ((c : ℚ) - (target - ((curZ : ℤ) : ℚ))) =
          (c : ℚ) - (target - ((curZ : ℤ) : ℚ)) :=
        pyRound6_eq_self_of_half _ (2 * curZ + 2 * c - S) (by rw [htarget]; push_cast; ring)
      rw [hid2]
      have hv1 : 0 ≤ pyTrunc ((c : ℚ) - (target - ((curZ : ℤ) : ℚ))) :=
        pyTrunc_nonneg _ (by linarith)
      have hmemA : ∀ q ∈ setKey m0 y (pyTrunc (target - ((curZ : ℤ) : ℚ))), (0 : ℤ) ≤ q.2 := by
        intro q hq
        rcases mem_setKey _ _ _ _ hq with h | h
        · rw [h]
          exact hv0
        · exact hm0 q h
      have hmemB0 : ∀ q ∈ setKey m1 y (pyTrunc ((c : ℚ) - (target - ((curZ : ℤ) : ℚ)))),
          (0 : ℤ) ≤ q.2 := by
        intro q hq
        rcases mem_setKey _ _ _ _ hq with h | h
        · rw [h]
          exact hv1
        · exact hm1 q h
      by_cases hex : |(c : ℚ) - (target - ((curZ : ℤ) : ℚ)) - target| < 1 / 1000000
      · rw [if_pos hex, if_pos (by omega : (1 : ℕ) + 1 ≥ 2)]
        refine ⟨_, 1 + 1, rfl, ?_⟩
        intro part hpart q hq
        rcases List.mem_cons.mp hpart with rfl | hpart'
        · exact hmemA q hq
        · rw [List.mem_singleton.mp hpart'] at hq
          exact hmemB0 q hq
      · rw [if_neg hex]
        obtain ⟨m1', pidxB, heqB, hmemB⟩ := ddLoop_two_phaseB target tl
          (setKey m0 y (pyTrunc (target - ((curZ : ℤ) : ℚ))))
          (setKey m1 y (pyTrunc ((c : ℚ) - (target - ((curZ : ℤ) : ℚ)))))
          ((c : ℚ) - (target - ((curZ : ℤ) : ℚ)))
          hpos_tl
          (by
            have hZQ : ((curZ : ℤ) : ℚ) + (c : ℚ) + ((sumZ tl : ℤ) : ℚ) = ((S : ℤ) : ℚ) := by
              exact_mod_cast congrArg (fun z : ℤ => (z : ℚ)) (by omega : curZ + c + sumZ tl = S)
            rw [htarget]
            rw [htarget] at hle
            linarith)
        refine ⟨_, pidxB, heqB, ?_⟩
        intro part hpart q hq
        rcases List.mem_cons.mp hpart with rfl | hpart'
        · exact hmemA q hq
        · rw [List.mem_singleton.mp hpart'] at hq
          rcases hmemB q hq with h | h
          · exact hmemB0 q h
          · exact hpos_tl q h
    · rw [if_neg hguard]
      simp only [List.getD_cons_zero, List.set_cons_zero]
      have hmemA : ∀ q ∈ setKey m0 y c, (0 : ℤ) ≤ q.2 := by
        intro q hq
        rcases mem_setKey _ _ _ _ hq with h | h
        · rw [h]
          exact hc
        · exact hm0 q h
      by_cases hex : |((curZ : ℤ) : ℚ) + (c : ℚ) - target| < 1 / 1000000
      · rw [if_pos hex, if_neg (by omega : ¬ (0 : ℕ) + 1 ≥ 2), Nat.zero_add]
        have hdiff : ((curZ : ℤ) : ℚ) + (c : ℚ) - target =
            ((2 * (curZ + c) - S : ℤ) : ℚ) / 2 := by
          rw [htarget]
          push_cast
          ring
        rw [hdiff] at hex
        have hhit : 2 * (curZ + c) - S = 0 := half_small_eq_zero _ hex
        obtain ⟨m1', pidxB, heqB, hmemB⟩ := ddLoop_two_phaseB target tl
          (setKey m0 y c) m1 0
          hpos_tl
          (by
            have hZQ : ((sumZ tl : ℤ) : ℚ) = ((curZ + c : ℤ) : ℚ) := by
              exact_mod_cast congrArg (fun z : ℤ => (z : ℚ)) (by omega : sumZ tl = curZ + c)
            rw [htarget, hZQ]
            push_cast
            have : (2 : ℚ) * ((curZ : ℚ) + (c : ℚ)) = (S : ℚ) := by
              exact_mod_cast congrArg (fun z : ℤ => (z : ℚ)) (by omega : 2 * (curZ + c) = S)
            linarith)
        refine ⟨_, pidxB, heqB, ?_⟩
        intro part hpart q hq
        rcases List.mem_cons.mp hpart with rfl | hpart'
        · exact hmemA q hq
        · rw [List.mem_singleton.mp hpart'] at hq
          rcases hmemB q hq with h | h
          · exact hm1 q h
          · exact hpos_tl q h
      · rw [if_neg hex]
        rw [show ((curZ : ℤ) : ℚ) + (c : ℚ) = (((curZ + c : ℤ)) : ℚ) by push_cast; ring]
        obtain ⟨parts', pidx, heq, hval⟩ := ih (setKey m0 y c) m1 (curZ + c)
          hpos_tl hmemA hm1
          (by push_cast; linarith [not_lt.mp hguard])
          (by omega)
        exact ⟨parts', pidx, heq, hval⟩

/-- The post-loop part of `divide_data` (`main.py:232-240`) preserves
non-negativity: the remainder branch only copies original pairs into the
last part and the final rendering only sorts each part, so if every value
produced by the main loop is non-negative, so is every count in the returned
shard maps. -/
theorem nonnegShards_of_loop (data : List (ℤ × ℤ)) (n : ℤ) (h0 : ¬ n = 0)
    (hneg : ¬ n < 0) (hnn : ∀ p ∈ data, 0 ≤ p.2)
    (hval : ∀ parts' pidx,
      ddLoop n.toNat (((((sortPairs data).map Prod.snd).sum : ℤ) : ℚ) / ((n : ℤ) : ℚ))
        (sortPairs data) (List.replicate n.toNat []) 0 0 = (parts', pidx) →
      ∀ part ∈ parts', ∀ q ∈ part, 0 ≤ q.2) :
    nonnegShards data n := by
  intro parts hdd part hpart p hp
  have hnn' : ∀ q ∈ sortPairs data, 0 ≤ q.2 :=
    fun q hq => hnn q ((mem_sortPairs q data).mp hq)
  simp only [divide_data] at hdd
  rw [if_neg h0, if_neg hneg] at hdd
  cases hres : ddLoop n.toNat (((((sortPairs data).map Prod.snd).sum : ℤ) : ℚ) / ((n : ℤ) : ℚ))
      (sortPairs data) (List.replicate n.toNat []) 0 0 with
  | mk parts' pidx =>
    have hv := hval parts' pidx hres
    rw [hres] at hdd
    by_cases hlt : pidx < n.toNat
    · rw [if_pos hlt] at hdd
      cases hsorted : sortPairs data with
      | nil =>
        rw [hsorted] at hdd
        have hdd' : Except.error PyErr.indexErr = Except.ok parts := hdd
        exact absurd hdd' (by simp)
      | cons y0c rest =>
        obtain ⟨y0, c0⟩ := y0c
        rw [hsorted] at hdd
        have hdd' : (if (((parts', pidx).1.getD (n.toNat - 1) []).any
              fun q => q.1 == y0) = true then
            Except.ok (List.map sortPairs (parts', pidx).1)
          else
            Except.ok (List.map sortPairs ((parts', pidx).1.set (n.toNat - 1)
              (List.foldl (fun m q => setKey m q.1 q.2) ((parts', pidx).1.getD (n.toNat - 1) [])
                (List.drop ((parts', pidx).1.getD 0 []).length ((y0, c0) :: rest)))))) =
            Except.ok parts := hdd
        split at hdd'
        · have hparts := (Except.ok.inj hdd').symm
          rw [hparts] at hpart
          rcases List.mem_map.mp hpart with ⟨part₀, hp₀, rfl⟩
          exact hv part₀ hp₀ p ((mem_sortPairs p part₀).mp hp)
        · have hparts := (Except.ok.inj hdd').symm
          rw [hparts] at hpart
          rcases List.mem_map.mp hpart with ⟨part₀, hp₀, rfl⟩
          rcases List.mem_or_eq_of_mem_set hp₀ with hin | heq2
          · exact hv part₀ hin p ((mem_sortPairs p part₀).mp hp)
          · have hp' := (mem_sortPairs p part₀).mp hp
            rw [heq2] at hp'
            rcases mem_foldl_setKey _ _ _ hp' with h | h
            · rcases getD_mem_or ((parts', pidx).1) (n.toNat - 1) [] with hg | hg
              · exact hv _ hg p h
              · rw [hg] at h
                exact absurd h (List.not_mem_nil p)
            · have hpd : p ∈ sortPairs data := by
                rw [hsorted]
                exact List.drop_subset _ _ h
              exact hnn' p hpd
    · rw [if_neg hlt] at hdd
      have hparts := (Except.ok.inj hdd).symm
      rw [hparts] at hpart
      rcases List.mem_map.mp hpart with ⟨part₀, hp₀, rfl⟩
      exact hv part₀ hp₀ p ((mem_sortPairs p part₀).mp hp)

/-- **C4 amended** (the nearby statement that holds).  For N = 1 and N = 2,
whenever `divide_data` returns shard maps for a year-count map with
non-negative counts, every count in every shard map is non-negative: with at
most two shards the running count never overshoots the per-shard target
`total / N` before a split, so `round(target - current, 6)` is never
negative.  The guarantee first fails at N = 3 (the counterexample). -/
theorem c4_amended_le_two_shards :
    ∀ (data : List (ℤ × ℤ)) (n : ℤ), (∀ p ∈ data, 0 ≤ p.2) → (n = 1 ∨ n = 2) →
      nonnegShards data n := by
  intro data n hnn hn
  have hnn' : ∀ q ∈ sortPairs data, 0 ≤ q.2 :=
    fun q hq => hnn q ((mem_sortPairs q data).mp hq)
  rcases hn with rfl | rfl
  · apply nonnegShards_of_loop data 1 (by decide) (by decide) hnn
    intro parts' pidx heq part hpart q hq
    obtain ⟨m', pidx', hloop, hmem⟩ := ddLoop_one_mem
      (((((sortPairs data).map Prod.snd).sum : ℤ) : ℚ) / (((1 : ℤ) : ℤ) : ℚ))
      (sortPairs data) [] 0 hnn'
      (by push_cast [sumZ]; rw [div_one, zero_add])
    rw [show Int.toNat 1 = 1 from rfl,
      show List.replicate 1 ([] : List (ℤ × ℤ)) = [[]] from rfl, hloop] at heq
    have hpp : parts' = [m'] := congrArg Prod.fst heq.symm
    rw [hpp] at hpart
    rw [List.mem_singleton.mp hpart] at hq
    rcases hmem q hq with h | h
    · exact absurd h (List.not_mem_nil q)
    · exact hnn' q h
  · apply nonnegShards_of_loop data 2 (by decide) (by decide) hnn
    intro parts' pidx heq part hpart q hq
    have hS0 : 0 ≤ sumZ (sortPairs data) := sumZ_nonneg _ hnn'
    obtain ⟨parts'', pidx'', hloop, hval⟩ := ddLoop_two_phaseA
      (((((sortPairs data).map Prod.snd).sum : ℤ) : ℚ) / (((2 : ℤ) : ℤ) : ℚ))
      ((sortPairs data).map Prod.snd).sum
      (by norm_num)
      (sortPairs data) [] [] 0 hnn'
      (by intro q hq; exact absurd hq (List.not_mem_nil q))
      (by intro q hq; exact absurd hq (List.not_mem_nil q))
      (by
        rw [Int.cast_zero]
        have hnum : (0 : ℚ) ≤ ((((sortPairs data).map Prod.snd).sum : ℤ) : ℚ) := by
          exact_mod_cast hS0
        exact div_nonneg hnum (by norm_num))
      (by rw [Int.zero_add]; rfl)
    rw [show Int.toNat 2 = 2 from rfl,
      show List.replicate 2 ([] : List (ℤ × ℤ)) = [[], []] from rfl] at heq
    rw [Int.cast_zero] at hloop
    rw [hloop] at heq
    have hpp : parts' = parts'' := congrArg Prod.fst heq.symm
    rw [hpp] at hpart
    exact hval part hpart q hq

/-- Witness for the amended C4 at `{1: 1, 2: 3}` with N = 2 (the split year 2
is stored as 1 in the first shard and 2 in the second, both non-negative). -/
theorem c4_amended_le_two_shards_witness : (0 : ℤ) ≤ ((2 : ℤ), (2 : ℤ)).2 := by
  have hdd : divide_data [((1 : ℤ), (1 : ℤ)), (2, 3)] 2 = .ok [[(1, 1), (2, 1)], [(2, 2)]] := by
    norm_num [divide_data, ddLoop, setKey, sortPairs, insertPair, pairLe, List.replicate,
      pyRound6_n1, pyRound6_n2, pyTrunc_n1, pyTrunc_n2, Int.toNat_ofNat]
  exact c4_amended_le_two_shards [(1, 1), (2, 3)] 2 (by decide) (Or.inr rfl)
    [[(1, 1), (2, 1)], [(2, 2)]] hdd [(2, 2)] (by decide) (2, 2) (by decide)

/-! ## C5 — the n ≤ 0 failure happens only after network activity -/

/-- **C5 counterexample.**  It is not the case that a shard count n ≤ 0 fails
before any Source Client request: with `server_count = 0` the startup path
has already issued the session-initialization GET, the probe search and the
year-histogram request before `divide_data` raises (`main.py:297-329`). -/
theorem c5_counterexample :
    ¬ (∀ (years : List (ℤ × ℤ)) (n : ℤ), n ≤ 0 → (mainStartup years n).1 = []) := by
  intro h
  have h0 := h [(2020, 5)] 0 (by omega)
  exact absurd h0 (by simp [mainStartup])

/-- **C5 amended** (the nearby statement that holds).  For every n ≤ 0 and a
non-empty year map, the run does fail — `divide_data` raises
`ZeroDivisionError` for n = 0 (computing `total_count / n`) and `IndexError`
for n < 0 (writing into an empty `result` list) — but only after the three
Source Client interactions of startup, and as a generic run-level exception
rather than an up-front configuration check. -/
theorem c5_amended_fails_after_network :
    ∀ (years : List (ℤ × ℤ)) (n : ℤ), n ≤ 0 → years ≠ [] →
      (mainStartup years n).1 =
        [SourceEffect.initSession, SourceEffect.searchProbe, SourceEffect.fetchYears] ∧
      ∃ e, (mainStartup years n).2 = .error e := by
  intro years n hn hne
  refine ⟨rfl, ?_⟩
  simp only [mainStartup]
  by_cases h0 : n = 0
  · subst h0
    exact ⟨.zeroDiv, by simp [divide_data]⟩
  · have hlt : n < 0 := by omega
    refine ⟨.indexErr, ?_⟩
    simp only [divide_data]
    rw [if_neg h0, if_pos hlt, if_neg hne]

/-- Witness for the amended C5 at `{2020: 5}` with n = 0. -/
theorem c5_amended_fails_after_network_witness :
    (mainStartup [((2020 : ℤ), (5 : ℤ))] 0).1 =
      [SourceEffect.initSession, SourceEffect.searchProbe, SourceEffect.fetchYears] ∧
    ∃ e, (mainStartup [((2020 : ℤ), (5 : ℤ))] 0).2 = .error e :=
  c5_amended_fails_after_network [(2020, 5)] 0 (by omega) (by simp)

/-! ## C2 — PAGE/BATCH resume indices are clobbered on window entry -/

/-- **C2** (code bug).  Resuming `env2` (one window of 3 pages) from the
saved state `current_request = 2` — i.e. pages 0 and 1 already processed,
page 2 in flight — replays the *entire* window: the trace equals the trace of
a run started from scratch, instead of the claimed remaining suffix
`[page 2, batch (2,0)]`.  Window entry (`main.py:369-370`) resets
`current_request` and `current_batch` to 0 before the resume reads at
`main.py:391-395` and `main.py:424`, so the PAGE loop always starts at 0. -/
theorem c2_resume_restarts_window :
    runMain env2 ⟨0, 0, 2, 0, false⟩ = runMain env2 ⟨0, 0, 0, 0, false⟩ ∧
    runMain env2 ⟨0, 0, 0, 0, false⟩ =
      ([TUnit.year 0, TUnit.window 0 0, TUnit.page 0 0 0, TUnit.batch 0 0 0 0,
        TUnit.page 0 0 1, TUnit.batch 0 0 1 0, TUnit.page 0 0 2, TUnit.batch 0 0 2 0],
       ⟨0, 0, 2, 0, true⟩) := by
  constructor <;> decide

/-! ## C3 — completed=true is not terminal -/

/-- **C3** (code bug).  Running `env3` (two years) to completion saves the
state ⟨1, 0, 0, 0, completed := true⟩; re-invoking `main` with that exact
saved state re-enters the year loop at index 1 and reprocesses the whole
last year (year, window, page and batch units), because the loaded
`completed` flag is never consulted (`main.py:276-295, 344-346`). -/
theorem c3_completed_not_terminal :
    runMain env3 ⟨0, 0, 0, 0, false⟩ =
      ([TUnit.year 0, TUnit.window 0 0, TUnit.page 0 0 0, TUnit.batch 0 0 0 0,
        TUnit.year 1, TUnit.window 1 0, TUnit.page 1 0 0, TUnit.batch 1 0 0 0],
       ⟨1, 0, 0, 0, true⟩) ∧
    runMain env3 ⟨1, 0, 0, 0, true⟩ =
      ([TUnit.year 1, TUnit.window 1 0, TUnit.page 1 0 0, TUnit.batch 1 0 0 0],
       ⟨1, 0, 0, 0, true⟩) := by
  constructor <;> decide

/-! ## C8 — batch isolation -/

theorem find_map_setField (k v : String) :
    ∀ m : List (String × String), m.any (fun p => p.1 == k) = true →
      ((m.map (fun p => if p.1 == k then (k, v) else p)).find? (fun p => p.1 == k)) =
        some (k, v) := by
  intro m
  induction m with
  | nil => intro h; simp at h
  | cons p rest ih =>
    intro h
    by_cases hp : p.1 == k
    · simp only [List.map_cons, if_pos hp]
      rw [List.find?_cons_of_pos _ (by simp)]
    · simp only [List.map_cons, if_neg hp]
      rw [List.find?_cons_of_neg _ (by simpa using hp)]
      apply ih
      simp only [List.any_cons, hp, Bool.false_or] at h
      exact h

theorem getField_setField (m : List (String × String)) (k v : String) :
    getField (setField m k v) k = some v := by
  by_cases h : m.any (fun p => p.1 == k)
  · unfold setField getField
    rw [if_pos h, find_map_setField k v m h]
    rfl
  · unfold setField getField
    rw [if_neg h]
    have hnone : m.find? (fun p => p.1 == k) = none := by
      rw [List.find?_eq_none]
      intro p hp hpk
      exact h (by rw [List.any_eq_true]; exact ⟨p, hp, hpk⟩)
    rw [List.find?_append, hnone]
    simp

/-- **C8** (confirmed).  `batch_process_judgments` returns one result per
input judgment, in order; an item whose processing raises has its input
annotated with the `_processing_error` marker carrying the message (the
exception is not propagated), and every other slot holds exactly what the
item function returned. -/
theorem c8_batch_isolation :
    ∀ (judgments : List JRec) (f : JRec → Except String JRec),
      (batch_process_judgments judgments f).length = judgments.length ∧
      ∀ (k : ℕ) (j : JRec), judgments[k]? = some j →
        ((∀ r, f j = .ok r → (batch_process_judgments judgments f)[k]? = some r) ∧
         (∀ e, f j = .error e →
            (batch_process_judgments judgments f)[k]? =
              some (setField j "_processing_error" e) ∧
            getField (setField j "_processing_error" e) "_processing_error" = some e)) := by
  intro judgments f
  constructor
  · exact List.length_map _ _
  · intro k j hk
    have hdx : (batch_process_judgments judgments f)[k]? =
        some (match f j with
          | .ok r => r
          | .error e => setField j "_processing_error" e) := by
      unfold batch_process_judgments
      rw [List.getElem?_map, hk]
      rfl
    constructor
    · intro r hr
      rw [hdx, hr]
    · intro e he
      rw [hdx, he]
      exact ⟨rfl, getField_setField j "_processing_error" e⟩

/-- Witness for C8: a two-element batch whose second item fails. -/
theorem c8_batch_isolation_witness :
    (batch_process_judgments [[("t", "a")], [("t", "b")]]
      (fun j => if j.any (fun p => p.2 == "b") then Except.error "boom" else Except.ok j)).length
      = 2 ∧
    (batch_process_judgments [[("t", "a")], [("t", "b")]]
      (fun j => if j.any (fun p => p.2 == "b") then Except.error "boom" else Except.ok j))[0]? =
      some [("t", "a")] ∧
    (batch_process_judgments [[("t", "a")], [("t", "b")]]
      (fun j => if j.any (fun p => p.2 == "b") then Except.error "boom" else Except.ok j))[1]? =
      some [("t", "b"), ("_processing_error", "boom")] := by
  have h := c8_batch_isolation [[("t", "a")], [("t", "b")]]
    (fun j => if j.any (fun p => p.2 == "b") then Except.error "boom" else Except.ok j)
  refine ⟨by rw [h.1]; rfl, ?_, ?_⟩
  · exact (h.2 0 [("t", "a")] rfl).1 [("t", "a")] rfl
  · have h2 := ((h.2 1 [("t", "b")] rfl).2 "boom" rfl).1
    rw [h2]
    rfl

/-! ## C9 — the retry wrapper exists but search/download are not wrapped -/

/-- **C9 counterexample.**  The search request path does not behave as the
retry-wrapped specification: for an oracle whose first attempt raises a
transient failure and whose second would succeed, the code returns `None`
after the single attempt (the `@retry_request` decorator is commented out,
`src/api.py:330-331`), while the claimed wrapped behaviour retries and
succeeds. -/
theorem c9_counterexample :
    ¬ (∀ oracle : ℕ → Except Unit Bool,
        Except.ok (search_cases_once (fun b => b) oracle) =
          search_cases_wrapped_spec (fun b => b) oracle) := by
  intro h
  have h0 := h (fun k => if k = 0 then Except.error () else Except.ok true)
  rw [show search_cases_once (fun b => b)
      (fun k => if k = 0 then Except.error () else Except.ok true) = none from rfl] at h0
  rw [show search_cases_wrapped_spec (fun b => b)
      (fun k => if k = 0 then Except.error () else Except.ok true) =
      Except.ok (some true) from rfl] at h0
  exact absurd h0 (by simp)

theorem retryAux_all_fail {E α : Type} (f : ℕ → Except E α) (d : ℕ) (e : ℕ → E) :
    ∀ (fuel attempt : ℕ) (delays : List ℕ),
      (∀ k, attempt ≤ k → k ≤ attempt + fuel → f k = .error (e k)) →
      retryAux f d fuel attempt delays =
        (.error (e (attempt + fuel)),
         delays ++ (List.range' attempt (fuel + 1)).map (fun a => d * (a + 1))) := by
  intro fuel
  induction fuel with
  | zero =>
    intro attempt delays h
    simp only [retryAux, h attempt le_rfl (by omega)]
    simp [List.range'_one]
  | succ n ih =>
    intro attempt delays h
    simp only [retryAux, h attempt le_rfl (by omega)]
    rw [ih (attempt + 1) (delays ++ [d * (attempt + 1)])
      (fun k hk1 hk2 => h k (by omega) (by omega))]
    rw [show attempt + 1 + n = attempt + (n + 1) by omega]
    rw [List.range'_succ, List.map_cons, List.append_assoc]
    rfl

theorem retryAux_first_ok {E α : Type} (f : ℕ → Except E α) (d : ℕ) (r : α) :
    ∀ (j fuel attempt : ℕ) (delays : List ℕ), j ≤ fuel →
      (∀ k, attempt ≤ k → k < attempt + j → ∃ ek, f k = .error ek) →
      f (attempt + j) = .ok r →
      (retryAux f d fuel attempt delays).1 = .ok r := by
  intro j
  induction j with
  | zero =>
    intro fuel attempt delays _ _ hok
    rw [Nat.add_zero] at hok
    cases fuel with
    | zero => simp [retryAux, hok]
    | succ fuel' => simp [retryAux, hok]
  | succ n ih =>
    intro fuel attempt delays hj hfail hok
    obtain ⟨ek, hek⟩ := hfail attempt le_rfl (by omega)
    cases fuel with
    | zero => omega
    | succ fuel' =>
      simp only [retryAux, hek]
      exact ih fuel' (attempt + 1) _ (by omega)
        (fun k hk1 hk2 => hfail k (by omega) (by omega))
        (by rw [show attempt + 1 + n = attempt + (n + 1) by omega]; exact hok)

/-- **C9 amended** (the nearby statement that holds).  The `retry_request`
wrapper itself implements the claimed contract — up to `max_retries`
retries, a linear backoff sleep of `retry_delay * (attempt + 1)` after each
transient failure, success returned as soon as an attempt succeeds, and the
last exception re-raised on exhaustion — but the search request path issues
exactly one unwrapped attempt and converts its failure to `None` (the
decorators are commented out), so no Source Client search/download call gets
this behaviour. -/
theorem c9_amended_retry_contract :
    (∀ (E α : Type) (m d : ℕ) (f : ℕ → Except E α) (e : ℕ → E),
        (∀ k, k ≤ m → f k = .error (e k)) →
        retry_request_run m d f =
          (.error (e m), (List.range (m + 1)).map (fun a => d * (a + 1)))) ∧
    (∀ (E α : Type) (m d : ℕ) (f : ℕ → Except E α) (j : ℕ) (r : α),
        j ≤ m → (∀ k, k < j → ∃ ek, f k = .error ek) → f j = .ok r →
        (retry_request_run m d f).1 = .ok r) ∧
    (∀ (E ρ : Type) (hr : ρ → Bool) (oracle : ℕ → Except E ρ) (err : E),
        oracle 0 = .error err → search_cases_once hr oracle = none) := by
  refine ⟨?_, ?_, ?_⟩
  · intro E α m d f e h
    unfold retry_request_run
    rw [retryAux_all_fail f d e m 0 [] (fun k hk1 hk2 => h k (by omega))]
    rw [Nat.zero_add, List.nil_append, List.range_eq_range']
  · intro E α m d f j r hj hfail hok
    unfold retry_request_run
    exact retryAux_first_ok f d r j m 0 [] hj
      (fun k hk1 hk2 => hfail k (by omega)) (by rw [Nat.zero_add]; exact hok)
  · intro E ρ hr oracle err h
    simp [search_cases_once, h]

/-- Witness for the amended C9: four failing attempts with base delay 2 sleep
[2, 4, 6, 8] and re-raise the last error; a failing single attempt makes the
unwrapped search return `None`. -/
theorem c9_amended_retry_contract_witness :
    retry_request_run 3 2 (fun k => (Except.error k : Except ℕ Bool)) =
      (Except.error 3, [2, 4, 6, 8]) ∧
    search_cases_once (fun b => b) (fun _ => (Except.error 0 : Except ℕ Bool)) = none := by
  constructor
  · have h := c9_amended_retry_contract.1 ℕ Bool 3 2 (fun k => Except.error k)
      (fun k => k) (fun k _ => rfl)
    rw [h]
    rfl
  · exact c9_amended_retry_contract.2.2 ℕ Bool (fun b => b) (fun _ => Except.error 0) 0 rfl

end Escr
